import Mathlib

/-!
Shallow embedding of the quiz-time NEAR contract (src/src/lib.rs).

The contract state (`QuizContract`) holds the owner account, a map of quizzes,
the set of published quiz ids, a per-account solved set and a per-account
per-quiz retry counter.  `LookupMap` is embedded as an association list,
`UnorderedSet` as a duplicate-free list.  Panics abort the whole call with no
state change (per-call atomicity of the host), so every entry point is embedded
as a function returning `Except QuizErr`, and `applyAction` keeps the old state
on error.  The SHA-256 primitive supplied by the host is embedded as an
arbitrary function parameter `hash : String → String`; the `Promise::transfer`
payment is external to the state machine and is reflected in the returned
outcome.  The outcome strings of `submit_answer` are embedded as a structured
`SubmitOutcome` carrying exactly the data interpolated into each message.
-/

namespace QuizTime

abbrev QuizId := Nat

abbrev AccountId := String

/-- `QuizStatus` from the source: `Published` or `Unpublished`. -/
inductive QuizStatus where
  | Published
  | Unpublished
deriving DecidableEq, Repr

/-- A quiz record: status, question, hex digest of the correct answer,
and the maximum prize amount (a `u128`, kept as `Nat`; division never
overflows and no claim exercises `u128` wraparound). -/
structure Quiz where
  status : QuizStatus
  question : String
  correct_hash : String
  max_prize_amount : Nat
deriving DecidableEq, Repr

/-- One row of `get_published_quizzes`: id, question, prize amount rendered
as a decimal string (`to_string` in the source). -/
structure JsonQuiz where
  quiz_id : QuizId
  question : String
  prize_amount : String
deriving DecidableEq, Repr

/-- The contract state (`QuizContract` in the source).  `LookupMap`s are
association lists, `UnorderedSet` a duplicate-free list. -/
structure QuizContract where
  owner_id : AccountId
  quizzes : List (QuizId × Quiz)
  published_quiz_ids : List QuizId
  solved_quizzes : List (AccountId × List QuizId)
  retries_left : List (AccountId × List (QuizId × Nat))
  current_quiz_id : QuizId
deriving DecidableEq, Repr

/-- The panics the contract can raise.  `InvalidAmount` stands for the
`max_prize_amount.parse::<u128>().unwrap()` panic in `create_quiz`. -/
inductive QuizErr where
  | NotFound
  | QuizNotPublished
  | AlreadySolved
  | OutOfRetries
  | Unauthorized
  | DuplicateQuiz
  | CorruptState
  | InvalidAmount
deriving DecidableEq, Repr

/-- Structured content of the string returned by `submit_answer`:
`correct amount` for the prize message, `wrongOutOfTries` for the exhaustion
message, `wrongRetriesLeft n` for the remaining-retries message. -/
inductive SubmitOutcome where
  | correct (amount : Nat)
  | wrongOutOfTries
  | wrongRetriesLeft (retries : Nat)
deriving DecidableEq, Repr

/-- `LookupMap::get` on an association list. -/
def mapGet {α β : Type} [DecidableEq α] : List (α × β) → α → Option β
  | [], _ => none
  | (k', v) :: rest, k => if k' = k then some v else mapGet rest k

/-- `LookupMap::insert`: replace in place if the key is present, else append. -/
def mapInsert {α β : Type} [DecidableEq α] : List (α × β) → α → β → List (α × β)
  | [], k, v => [(k, v)]
  | (k', v') :: rest, k, v =>
    if k' = k then (k, v) :: rest else (k', v') :: mapInsert rest k v

/-- `UnorderedSet::insert`: add the element if absent. -/
def setInsert {α : Type} [DecidableEq α] (s : List α) (x : α) : List α :=
  if x ∈ s then s else s ++ [x]

/-- `QuizContract::new`: empty state owned by `owner_id`. -/
def QuizContract.new (owner_id : AccountId) : QuizContract :=
  { owner_id := owner_id
    quizzes := []
    published_quiz_ids := []
    solved_quizzes := []
    retries_left := []
    current_quiz_id := 0 }

/-- `check_owner`: panic with `Unauthorized` unless the caller is the owner. -/
def check_owner (st : QuizContract) (caller : AccountId) : Except QuizErr Unit :=
  if st.owner_id = caller then .ok () else .error .Unauthorized

/-- Accumulate the value of a run of ASCII decimal digits; `none` on the
first non-digit character. -/
def parseDecDigits : List Char → Nat → Option Nat
  | [], acc => some acc
  | c :: cs, acc =>
    if c.isDigit then parseDecDigits cs (acc * 10 + (c.toNat - 48)) else none

/-- Rust `str::parse::<u128>()`: optional leading `+`, then at least one
ASCII digit, value below `2 ^ 128`; `none` on anything else. -/
def parseU128 (s : String) : Option Nat :=
  let chars :=
    match s.data with
    | '+' :: rest => rest
    | cs => cs
  match chars with
  | [] => none
  | _ :: _ =>
    match parseDecDigits chars 0 with
    | none => none
    | some n => if n < 2 ^ 128 then some n else none

/-- `create_quiz`: owner-only; parses the prize amount, stores a fresh quiz
under `current_quiz_id`, fails `DuplicateQuiz` if that id is occupied, adds
the id to the publication index when `publish`, and increments the counter. -/
def create_quiz (st : QuizContract) (caller : AccountId) (question : String)
    (correct_hash : String) (max_prize_amount : String) (publish : Bool) :
    Except QuizErr (QuizContract × QuizId) :=
  match check_owner st caller with
  | .error e => .error e
  | .ok _ =>
    match parseU128 max_prize_amount with
    | none => .error .InvalidAmount
    | some amount =>
      let status := if publish then QuizStatus.Published else QuizStatus.Unpublished
      let quiz_id := st.current_quiz_id
      match mapGet st.quizzes quiz_id with
      | some _ => .error .DuplicateQuiz
      | none =>
        let quizzes' := mapInsert st.quizzes quiz_id
          { status := status, question := question, correct_hash := correct_hash
            max_prize_amount := amount }
        let published' :=
          if publish then setInsert st.published_quiz_ids quiz_id
          else st.published_quiz_ids
        .ok ({ st with
                quizzes := quizzes'
                published_quiz_ids := published'
                current_quiz_id := st.current_quiz_id + 1 }, quiz_id)

/-- `get_quiz_status`: the stored status, or `none` when the id is absent. -/
def get_quiz_status (st : QuizContract) (quiz_id : QuizId) : Option QuizStatus :=
  (mapGet st.quizzes quiz_id).map Quiz.status

/-- `publish_quiz`: owner-only; `NotFound` on an absent id; flips
`Unpublished` to `Published` and inserts into the index, then re-stores the
quiz record unconditionally (a no-op re-insert when already published). -/
def publish_quiz (st : QuizContract) (caller : AccountId) (quiz_id : QuizId) :
    Except QuizErr QuizContract :=
  match check_owner st caller with
  | .error e => .error e
  | .ok _ =>
    match mapGet st.quizzes quiz_id with
    | none => .error .NotFound
    | some quiz =>
      if quiz.status = QuizStatus.Unpublished then
        .ok { st with
                quizzes := mapInsert st.quizzes quiz_id { quiz with status := .Published }
                published_quiz_ids := setInsert st.published_quiz_ids quiz_id }
      else
        .ok { st with quizzes := mapInsert st.quizzes quiz_id quiz }

/-- Helper for `get_published_quizzes`: resolve each listed id in the quiz
map, building a `JsonQuiz` row; panic `CorruptState` on a dangling id. -/
def resolveQuizzes (st : QuizContract) : List QuizId → Except QuizErr (List JsonQuiz)
  | [] => .ok []
  | quiz_id :: rest =>
    match mapGet st.quizzes quiz_id with
    | none => .error .CorruptState
    | some quiz =>
      match resolveQuizzes st rest with
      | .error e => .error e
      | .ok js =>
        .ok ({ quiz_id := quiz_id, question := quiz.question
               prize_amount := toString quiz.max_prize_amount } :: js)

/-- `get_published_quizzes`: resolve every id in the publication index. -/
def get_published_quizzes (st : QuizContract) : Except QuizErr (List JsonQuiz) :=
  resolveQuizzes st st.published_quiz_ids

/-- `submit_answer`, executed on behalf of `caller` with the host hash
function `hash`: load the quiz (`NotFound`), require it published, reject a
solved pair (`AlreadySolved`) and an exhausted pair (`OutOfRetries`); on a
correct digest mark solved and report the prize
`max_prize_amount / (4 - retries)`; on a wrong digest decrement and persist
the retry counter. -/
def submit_answer (hash : String → String) (st : QuizContract) (caller : AccountId)
    (quiz_id : QuizId) (answer : String) :
    Except QuizErr (QuizContract × SubmitOutcome) :=
  match mapGet st.quizzes quiz_id with
  | none => .error .NotFound
  | some quiz =>
    if quiz.status = QuizStatus.Published then
      let solved_set := (mapGet st.solved_quizzes caller).getD []
      if quiz_id ∈ solved_set then .error .AlreadySolved
      else
        let retries_map := (mapGet st.retries_left caller).getD []
        let retries := (mapGet retries_map quiz_id).getD 3
        if retries = 0 then .error .OutOfRetries
        else
          let answer_hash := hash answer
          if answer_hash = quiz.correct_hash then
            let amount := quiz.max_prize_amount / (4 - retries)
            .ok ({ st with
                    solved_quizzes :=
                      mapInsert st.solved_quizzes caller (setInsert solved_set quiz_id) },
                 .correct amount)
          else
            let retries' := retries - 1
            let st' := { st with
                          retries_left :=
                            mapInsert st.retries_left caller
                              (mapInsert retries_map quiz_id retries') }
            if retries' = 0 then .ok (st', .wrongOutOfTries)
            else .ok (st', .wrongRetriesLeft retries')
    else .error .QuizNotPublished

/-- The solved set of an account (empty when no entry exists yet). -/
def solvedSetOf (st : QuizContract) (a : AccountId) : List QuizId :=
  (mapGet st.solved_quizzes a).getD []

/-- The retry map of an account (empty when no entry exists yet). -/
def retriesMapOf (st : QuizContract) (a : AccountId) : List (QuizId × Nat) :=
  (mapGet st.retries_left a).getD []

/-- `retriesLeft(account, quiz)`: the stored counter, default 3 when absent. -/
def retriesOf (st : QuizContract) (a : AccountId) (quiz_id : QuizId) : Nat :=
  (mapGet (retriesMapOf st a) quiz_id).getD 3

/-- An external call to the contract, with the caller identity the host
would supply. -/
inductive Action where
  | create (caller : AccountId) (question correct_hash max_prize_amount : String)
      (publish : Bool)
  | publishQ (caller : AccountId) (quiz_id : QuizId)
  | submit (caller : AccountId) (quiz_id : QuizId) (answer : String)

/-- Run one call against the state; a panic rolls the call back, leaving the
state unchanged (per-call atomicity of the host). -/
def applyAction (hash : String → String) (st : QuizContract) : Action → QuizContract
  | .create c q h m p =>
    match create_quiz st c q h m p with
    | .ok (st', _) => st'
    | .error _ => st
  | .publishQ c quiz_id =>
    match publish_quiz st c quiz_id with
    | .ok st' => st'
    | .error _ => st
  | .submit c quiz_id ans =>
    match submit_answer hash st c quiz_id ans with
    | .ok (st', _) => st'
    | .error _ => st

/-- States reachable from a freshly initialized contract by any sequence of
calls. -/
inductive Reachable (hash : String → String) : QuizContract → Prop
  | init (owner : AccountId) : Reachable hash (QuizContract.new owner)
  | step (st : QuizContract) (a : Action) :
      Reachable hash st → Reachable hash (applyAction hash st a)

/-! ### Association-list and set lemmas -/

theorem mapGet_mapInsert_self {α β : Type} [DecidableEq α] (m : List (α × β)) (k : α) (v : β) :
    mapGet (mapInsert m k v) k = some v := by
  induction m with
  | nil => simp [mapInsert, mapGet]
  | cons hd tl ih =>
    obtain ⟨k', v'⟩ := hd
    by_cases h : k' = k
    · simp [mapInsert, mapGet, h]
    · simp [mapInsert, mapGet, h, ih]

theorem mapGet_mapInsert_ne {α β : Type} [DecidableEq α] (m : List (α × β)) (k k' : α) (v : β)
    (h : k' ≠ k) : mapGet (mapInsert m k v) k' = mapGet m k' := by
  induction m with
  | nil => simp [mapInsert, mapGet, Ne.symm h]
  | cons hd tl ih =>
    obtain ⟨k'', v''⟩ := hd
    by_cases hk : k'' = k
    · subst hk
      simp [mapInsert, mapGet, Ne.symm h]
    · simp only [mapInsert, if_neg hk, mapGet]
      by_cases hk' : k'' = k'
      · simp [hk']
      · simp [hk', ih]

theorem mapInsert_mapGet_eq {α β : Type} [DecidableEq α] (m : List (α × β)) (k : α) (v : β)
    (h : mapGet m k = some v) : mapInsert m k v = m := by
  induction m with
  | nil => simp [mapGet] at h
  | cons hd tl ih =>
    obtain ⟨k', v'⟩ := hd
    by_cases hk : k' = k
    · subst hk
      rw [mapGet, if_pos rfl] at h
      injection h with h
      subst h
      simp [mapInsert]
    · simp only [mapGet, if_neg hk] at h
      simp [mapInsert, hk, ih h]

theorem mem_setInsert {α : Type} [DecidableEq α] (s : List α) (x y : α) :
    x ∈ setInsert s y ↔ x = y ∨ x ∈ s := by
  unfold setInsert
  split
  · constructor
    · exact fun hx => Or.inr hx
    · rintro (rfl | hx)
      · assumption
      · assumption
  · simp [List.mem_append, or_comm]

theorem mem_setInsert_self {α : Type} [DecidableEq α] (s : List α) (y : α) :
    y ∈ setInsert s y := (mem_setInsert s y y).mpr (Or.inl rfl)

theorem setInsert_of_mem {α : Type} [DecidableEq α] (s : List α) (y : α) (h : y ∈ s) :
    setInsert s y = s := if_pos h

/-! ### Characterizations of the entry points -/

theorem check_owner_eq_ok {st : QuizContract} {c : AccountId} {u : Unit}
    (h : check_owner st c = .ok u) : st.owner_id = c := by
  unfold check_owner at h
  by_cases ho : st.owner_id = c
  · exact ho
  · rw [if_neg ho] at h
    simp at h

theorem check_owner_eq_error {st : QuizContract} {c : AccountId}
    (h : st.owner_id ≠ c) : check_owner st c = .error .Unauthorized := by
  unfold check_owner
  rw [if_neg h]

/-- Anatomy of a successful `create_quiz` call. -/
theorem create_quiz_ok {st st' : QuizContract} {c q hsh m : String} {p : Bool} {qid : QuizId}
    (hok : create_quiz st c q hsh m p = .ok (st', qid)) :
    st.owner_id = c ∧ qid = st.current_quiz_id ∧
    mapGet st.quizzes st.current_quiz_id = none ∧
    ∃ amount, parseU128 m = some amount ∧
      st' = { st with
              quizzes := mapInsert st.quizzes st.current_quiz_id
                { status := if p then .Published else .Unpublished
                  question := q, correct_hash := hsh, max_prize_amount := amount }
              published_quiz_ids :=
                if p then setInsert st.published_quiz_ids st.current_quiz_id
                else st.published_quiz_ids
              current_quiz_id := st.current_quiz_id + 1 } := by
  cases p with
  | true =>
    unfold create_quiz at hok
    split at hok
    · simp at hok
    next u heq =>
      have ho := check_owner_eq_ok heq
      split at hok
      · simp at hok
      next amount hparse =>
        dsimp only at hok
        split at hok
        · simp at hok
        next hnone =>
          simp only [Except.ok.injEq, Prod.mk.injEq] at hok
          obtain ⟨hst, hqid⟩ := hok
          refine ⟨ho, hqid.symm, hnone, amount, hparse, ?_⟩
          rw [← hst]
          simp
  | false =>
    unfold create_quiz at hok
    split at hok
    · simp at hok
    next u heq =>
      have ho := check_owner_eq_ok heq
      split at hok
      · simp at hok
      next amount hparse =>
        dsimp only at hok
        split at hok
        · simp at hok
        next hnone =>
          simp only [Except.ok.injEq, Prod.mk.injEq] at hok
          obtain ⟨hst, hqid⟩ := hok
          refine ⟨ho, hqid.symm, hnone, amount, hparse, ?_⟩
          rw [← hst]

theorem create_quiz_unauthorized (st : QuizContract) (c q hsh m : String) (p : Bool)
    (h : c ≠ st.owner_id) :
    create_quiz st c q hsh m p = .error .Unauthorized := by
  unfold create_quiz
  rw [check_owner_eq_error (Ne.symm h)]

/-- Anatomy of a successful `publish_quiz` call. -/
theorem publish_quiz_ok {st st' : QuizContract} {c : AccountId} {qid : QuizId}
    (hok : publish_quiz st c qid = .ok st') :
    st.owner_id = c ∧ ∃ quiz, mapGet st.quizzes qid = some quiz ∧
      ((quiz.status = .Unpublished ∧
        st' = { st with
                quizzes := mapInsert st.quizzes qid { quiz with status := .Published }
                published_quiz_ids := setInsert st.published_quiz_ids qid }) ∨
       (quiz.status ≠ .Unpublished ∧
        st' = { st with quizzes := mapInsert st.quizzes qid quiz })) := by
  unfold publish_quiz at hok
  split at hok
  · simp at hok
  next u heq =>
    have ho := check_owner_eq_ok heq
    split at hok
    · simp at hok
    next quiz hq =>
      split at hok
      next hunpub =>
        simp only [Except.ok.injEq] at hok
        exact ⟨ho, quiz, hq, Or.inl ⟨hunpub, hok.symm⟩⟩
      next hpub =>
        simp only [Except.ok.injEq] at hok
        exact ⟨ho, quiz, hq, Or.inr ⟨hpub, hok.symm⟩⟩

theorem publish_quiz_unauthorized (st : QuizContract) (c : AccountId) (qid : QuizId)
    (h : c ≠ st.owner_id) :
    publish_quiz st c qid = .error .Unauthorized := by
  unfold publish_quiz
  rw [check_owner_eq_error (Ne.symm h)]

/-- Anatomy of a successful `submit_answer` call. -/
theorem submit_answer_ok {hash : String → String} {st st' : QuizContract} {c : AccountId}
    {qid : QuizId} {ans : String} {out : SubmitOutcome}
    (hok : submit_answer hash st c qid ans = .ok (st', out)) :
    ∃ quiz, mapGet st.quizzes qid = some quiz ∧ quiz.status = .Published ∧
      qid ∉ solvedSetOf st c ∧ retriesOf st c qid ≠ 0 ∧
      ((hash ans = quiz.correct_hash ∧
        out = .correct (quiz.max_prize_amount / (4 - retriesOf st c qid)) ∧
        st' = { st with
                solved_quizzes := mapInsert st.solved_quizzes c
                  (setInsert (solvedSetOf st c) qid) }) ∨
       (hash ans ≠ quiz.correct_hash ∧
        st' = { st with
                retries_left := mapInsert st.retries_left c
                  (mapInsert (retriesMapOf st c) qid (retriesOf st c qid - 1)) })) := by
  unfold submit_answer at hok
  split at hok
  · simp at hok
  next quiz hq =>
    simp only [solvedSetOf, retriesMapOf, retriesOf]
    dsimp only at hok
    split at hok
    next hpub =>
      split at hok
      · simp at hok
      next hns =>
        split at hok
        · simp at hok
        next hr =>
          split at hok
          next hcorr =>
            simp only [Except.ok.injEq, Prod.mk.injEq] at hok
            obtain ⟨hst, hout⟩ := hok
            exact ⟨quiz, hq, hpub, hns, hr,
              Or.inl ⟨hcorr, hout.symm, hst.symm⟩⟩
          next hwrong =>
            split at hok
            · simp only [Except.ok.injEq, Prod.mk.injEq] at hok
              exact ⟨quiz, hq, hpub, hns, hr, Or.inr ⟨hwrong, hok.1.symm⟩⟩
            · simp only [Except.ok.injEq, Prod.mk.injEq] at hok
              exact ⟨quiz, hq, hpub, hns, hr, Or.inr ⟨hwrong, hok.1.symm⟩⟩
    next hpub =>
      simp at hok

/-! ### The inductive invariant of reachable states -/

/-- Invariant bundle: the publication index lists exactly the published
quizzes; every retry counter is at most 3; a solved pair and a stored retry
entry both point at an existing, published quiz. -/
structure Inv (st : QuizContract) : Prop where
  pub_iff : ∀ qid : QuizId, qid ∈ st.published_quiz_ids ↔
    ∃ q, mapGet st.quizzes qid = some q ∧ q.status = QuizStatus.Published
  retries_le : ∀ (a : AccountId) (qid : QuizId), retriesOf st a qid ≤ 3
  solved_pub : ∀ (a : AccountId) (qid : QuizId), qid ∈ solvedSetOf st a →
    ∃ q, mapGet st.quizzes qid = some q ∧ q.status = QuizStatus.Published
  retries_entry_pub : ∀ (a : AccountId) (qid : QuizId),
    (mapGet (retriesMapOf st a) qid).isSome →
    ∃ q, mapGet st.quizzes qid = some q ∧ q.status = QuizStatus.Published

theorem inv_new (owner : AccountId) : Inv (QuizContract.new owner) := by
  constructor
  · intro qid
    simp [QuizContract.new, mapGet]
  · intro a qid
    simp [retriesOf, retriesMapOf, QuizContract.new, mapGet]
  · intro a qid h
    simp [solvedSetOf, QuizContract.new, mapGet] at h
  · intro a qid h
    simp [retriesMapOf, QuizContract.new, mapGet] at h

theorem inv_create {st st' : QuizContract} {c q hsh m : String} {p : Bool} {qid : QuizId}
    (hInv : Inv st) (hok : create_quiz st c q hsh m p = .ok (st', qid)) : Inv st' := by
  obtain ⟨-, -, hnone, amount, -, hst⟩ := create_quiz_ok hok
  subst hst
  constructor
  · intro id
    cases p with
    | true =>
      by_cases hid : id = st.current_quiz_id
      · subst hid
        simp [mapGet_mapInsert_self, mem_setInsert_self]
      · simp [mem_setInsert, hid, mapGet_mapInsert_ne _ _ _ _ hid, hInv.pub_iff id]
    | false =>
      by_cases hid : id = st.current_quiz_id
      · subst hid
        simp [mapGet_mapInsert_self, hInv.pub_iff, hnone]
      · simp [mapGet_mapInsert_ne _ _ _ _ hid, hInv.pub_iff id]
  · intro a id
    exact hInv.retries_le a id
  · intro a id hmem
    obtain ⟨qq, hget, hstat⟩ := hInv.solved_pub a id hmem
    by_cases hid : id = st.current_quiz_id
    · subst hid
      rw [hnone] at hget
      exact Option.noConfusion hget
    · exact ⟨qq, by rw [mapGet_mapInsert_ne _ _ _ _ hid]; exact hget, hstat⟩
  · intro a id hsome
    obtain ⟨qq, hget, hstat⟩ := hInv.retries_entry_pub a id hsome
    by_cases hid : id = st.current_quiz_id
    · subst hid
      rw [hnone] at hget
      exact Option.noConfusion hget
    · exact ⟨qq, by rw [mapGet_mapInsert_ne _ _ _ _ hid]; exact hget, hstat⟩

theorem inv_publish {st st' : QuizContract} {c : AccountId} {qid : QuizId}
    (hInv : Inv st) (hok : publish_quiz st c qid = .ok st') : Inv st' := by
  obtain ⟨-, quiz, hq, hcase⟩ := publish_quiz_ok hok
  rcases hcase with ⟨hunpub, rfl⟩ | ⟨hpub, rfl⟩
  · constructor
    · intro id
      by_cases hid : id = qid
      · subst hid
        simp [mapGet_mapInsert_self, mem_setInsert_self]
      · simp [mem_setInsert, hid, mapGet_mapInsert_ne _ _ _ _ hid, hInv.pub_iff id]
    · intro a id
      exact hInv.retries_le a id
    · intro a id hmem
      obtain ⟨qq, hget, hstat⟩ := hInv.solved_pub a id hmem
      by_cases hid : id = qid
      · subst hid
        exact ⟨{ quiz with status := .Published }, mapGet_mapInsert_self _ _ _, rfl⟩
      · exact ⟨qq, by rw [mapGet_mapInsert_ne _ _ _ _ hid]; exact hget, hstat⟩
    · intro a id hsome
      obtain ⟨qq, hget, hstat⟩ := hInv.retries_entry_pub a id hsome
      by_cases hid : id = qid
      · subst hid
        exact ⟨{ quiz with status := .Published }, mapGet_mapInsert_self _ _ _, rfl⟩
      · exact ⟨qq, by rw [mapGet_mapInsert_ne _ _ _ _ hid]; exact hget, hstat⟩
  · have heq : mapInsert st.quizzes qid quiz = st.quizzes := mapInsert_mapGet_eq _ _ _ hq
    have hsame : ({ st with quizzes := mapInsert st.quizzes qid quiz } : QuizContract) = st := by
      rw [heq]
    rw [hsame]
    exact hInv

theorem inv_submit {hash : String → String} {st st' : QuizContract} {c : AccountId}
    {qid : QuizId} {ans : String} {out : SubmitOutcome}
    (hInv : Inv st) (hok : submit_answer hash st c qid ans = .ok (st', out)) : Inv st' := by
  obtain ⟨quiz, hq, hpub, hns, hr, hcase⟩ := submit_answer_ok hok
  rcases hcase with ⟨-, -, rfl⟩ | ⟨-, rfl⟩
  · constructor
    · intro id
      exact hInv.pub_iff id
    · intro a id
      exact hInv.retries_le a id
    · intro a id hmem
      by_cases ha : a = c
      · subst ha
        rw [solvedSetOf] at hmem
        simp only [mapGet_mapInsert_self, Option.getD_some] at hmem
        rcases (mem_setInsert _ _ _).mp hmem with rfl | hold
        · exact ⟨quiz, hq, hpub⟩
        · exact hInv.solved_pub a id hold
      · rw [solvedSetOf] at hmem
        rw [mapGet_mapInsert_ne _ _ _ _ ha] at hmem
        exact hInv.solved_pub a id hmem
    · intro a id hsome
      exact hInv.retries_entry_pub a id hsome
  · constructor
    · intro id
      exact hInv.pub_iff id
    · intro a id
      by_cases ha : a = c
      · subst ha
        by_cases hid : id = qid
        · subst hid
          rw [retriesOf, retriesMapOf]
          simp only [mapGet_mapInsert_self, Option.getD_some]
          calc retriesOf st a id - 1 ≤ retriesOf st a id := Nat.sub_le _ _
            _ ≤ 3 := hInv.retries_le a id
        · rw [retriesOf, retriesMapOf]
          simp only [mapGet_mapInsert_self, Option.getD_some]
          rw [mapGet_mapInsert_ne _ _ _ _ hid]
          exact hInv.retries_le a id
      · rw [retriesOf, retriesMapOf]
        simp only [mapGet_mapInsert_ne _ _ _ _ ha]
        exact hInv.retries_le a id
    · intro a id hmem
      exact hInv.solved_pub a id hmem
    · intro a id hsome
      by_cases ha : a = c
      · subst ha
        rw [retriesMapOf] at hsome
        simp only [mapGet_mapInsert_self, Option.getD_some] at hsome
        by_cases hid : id = qid
        · subst hid
          exact ⟨quiz, hq, hpub⟩
        · rw [mapGet_mapInsert_ne _ _ _ _ hid] at hsome
          exact hInv.retries_entry_pub a id hsome
      · rw [retriesMapOf] at hsome
        rw [mapGet_mapInsert_ne _ _ _ _ ha] at hsome
        exact hInv.retries_entry_pub a id hsome

theorem inv_applyAction (hash : String → String) {st : QuizContract}
    (hInv : Inv st) (a : Action) : Inv (applyAction hash st a) := by
  cases a with
  | create c q h m p =>
    simp only [applyAction]
    cases hc : create_quiz st c q h m p with
    | error e => exact hInv
    | ok r =>
      obtain ⟨st', qid⟩ := r
      exact inv_create hInv hc
  | publishQ c qid =>
    simp only [applyAction]
    cases hc : publish_quiz st c qid with
    | error e => exact hInv
    | ok st' => exact inv_publish hInv hc
  | submit c qid ans =>
    simp only [applyAction]
    cases hc : submit_answer hash st c qid ans with
    | error e => exact hInv
    | ok r =>
      obtain ⟨st', out⟩ := r
      exact inv_submit hInv hc

theorem reachable_inv {hash : String → String} {st : QuizContract}
    (h : Reachable hash st) : Inv st := by
  induction h with
  | init owner => exact inv_new owner
  | step st a hr ih => exact inv_applyAction hash ih a

/-- No call ever increases a retry counter. -/
theorem retriesOf_applyAction_le (hash : String → String) (st : QuizContract) (act : Action)
    (a : AccountId) (qid : QuizId) :
    retriesOf (applyAction hash st act) a qid ≤ retriesOf st a qid := by
  cases act with
  | create c q h m p =>
    simp only [applyAction]
    cases hc : create_quiz st c q h m p with
    | error e => exact le_refl _
    | ok r =>
      obtain ⟨st', id⟩ := r
      obtain ⟨-, -, -, amount, -, rfl⟩ := create_quiz_ok hc
      exact le_refl _
  | publishQ c id =>
    simp only [applyAction]
    cases hc : publish_quiz st c id with
    | error e => exact le_refl _
    | ok st' =>
      obtain ⟨-, quiz, hq, hcase⟩ := publish_quiz_ok hc
      rcases hcase with ⟨-, rfl⟩ | ⟨-, rfl⟩ <;> exact le_refl _
  | submit c id ans =>
    simp only [applyAction]
    cases hc : submit_answer hash st c id ans with
    | error e => exact le_refl _
    | ok r =>
      obtain ⟨st', out⟩ := r
      obtain ⟨quiz, hq, hpub, hns, hrz, hcase⟩ := submit_answer_ok hc
      rcases hcase with ⟨-, -, rfl⟩ | ⟨-, rfl⟩
      · exact le_refl _
      · by_cases ha : a = c
        · subst ha
          by_cases hid : qid = id
          · subst hid
            simp only [retriesOf, retriesMapOf, mapGet_mapInsert_self, Option.getD_some]
            exact Nat.sub_le _ _
          · simp only [retriesOf, retriesMapOf, mapGet_mapInsert_self, Option.getD_some,
              mapGet_mapInsert_ne _ _ _ _ hid]
            exact le_refl _
        · simp only [retriesOf, retriesMapOf, mapGet_mapInsert_ne _ _ _ _ ha]
          exact le_refl _

/-! ### Direct computations of `submit_answer` under explicit preconditions -/

theorem submit_answer_eq_error_already_solved (hash : String → String) (st : QuizContract)
    (c : AccountId) (qid : QuizId) (ans : String) (quiz : Quiz)
    (hq : mapGet st.quizzes qid = some quiz) (hpub : quiz.status = QuizStatus.Published)
    (hs : qid ∈ solvedSetOf st c) :
    submit_answer hash st c qid ans = .error .AlreadySolved := by
  rw [solvedSetOf] at hs
  unfold submit_answer
  split
  next hnone => rw [hq] at hnone; exact Option.noConfusion hnone
  next quiz2 hsome =>
    rw [hq] at hsome
    injection hsome with hsome
    subst hsome
    rw [if_pos hpub]
    dsimp only
    rw [if_pos hs]

theorem submit_answer_eq_error_out_of_retries (hash : String → String) (st : QuizContract)
    (c : AccountId) (qid : QuizId) (ans : String) (quiz : Quiz)
    (hq : mapGet st.quizzes qid = some quiz) (hpub : quiz.status = QuizStatus.Published)
    (hns : qid ∉ solvedSetOf st c) (hr0 : retriesOf st c qid = 0) :
    submit_answer hash st c qid ans = .error .OutOfRetries := by
  rw [solvedSetOf] at hns
  rw [retriesOf, retriesMapOf] at hr0
  unfold submit_answer
  split
  next hnone => rw [hq] at hnone; exact Option.noConfusion hnone
  next quiz2 hsome =>
    rw [hq] at hsome
    injection hsome with hsome
    subst hsome
    rw [if_pos hpub]
    dsimp only
    rw [if_neg hns, if_pos hr0]

theorem submit_answer_eq_correct (hash : String → String) (st : QuizContract)
    (c : AccountId) (qid : QuizId) (ans : String) (quiz : Quiz)
    (hq : mapGet st.quizzes qid = some quiz) (hpub : quiz.status = QuizStatus.Published)
    (hns : qid ∉ solvedSetOf st c) (hrnz : retriesOf st c qid ≠ 0)
    (hcorr : hash ans = quiz.correct_hash) :
    submit_answer hash st c qid ans =
      .ok ({ st with
              solved_quizzes := mapInsert st.solved_quizzes c
                (setInsert (solvedSetOf st c) qid) },
           .correct (quiz.max_prize_amount / (4 - retriesOf st c qid))) := by
  rw [solvedSetOf] at hns
  rw [retriesOf, retriesMapOf] at hrnz
  unfold submit_answer
  split
  next hnone => rw [hq] at hnone; exact Option.noConfusion hnone
  next quiz2 hsome =>
    rw [hq] at hsome
    injection hsome with hsome
    subst hsome
    rw [if_pos hpub]
    dsimp only
    rw [if_neg hns, if_neg hrnz, if_pos hcorr, solvedSetOf, retriesOf, retriesMapOf]

theorem submit_answer_eq_wrong (hash : String → String) (st : QuizContract)
    (c : AccountId) (qid : QuizId) (ans : String) (quiz : Quiz)
    (hq : mapGet st.quizzes qid = some quiz) (hpub : quiz.status = QuizStatus.Published)
    (hns : qid ∉ solvedSetOf st c) (hrnz : retriesOf st c qid ≠ 0)
    (hwrong : hash ans ≠ quiz.correct_hash) :
    submit_answer hash st c qid ans =
      .ok ({ st with
              retries_left := mapInsert st.retries_left c
                (mapInsert (retriesMapOf st c) qid (retriesOf st c qid - 1)) },
           if retriesOf st c qid - 1 = 0 then .wrongOutOfTries
           else .wrongRetriesLeft (retriesOf st c qid - 1)) := by
  rw [solvedSetOf] at hns
  rw [retriesOf, retriesMapOf] at hrnz
  unfold submit_answer
  split
  next hnone => rw [hq] at hnone; exact Option.noConfusion hnone
  next quiz2 hsome =>
    rw [hq] at hsome
    injection hsome with hsome
    subst hsome
    rw [if_pos hpub]
    dsimp only
    rw [if_neg hns, if_neg hrnz, if_neg hwrong, retriesOf, retriesMapOf]
    split <;> rfl

/-- Resolving a list of ids all present in the registry succeeds and returns
one row per id, in order. -/
theorem resolveQuizzes_ok (st : QuizContract) (l : List QuizId)
    (h : ∀ id ∈ l, (mapGet st.quizzes id).isSome) :
    ∃ js, resolveQuizzes st l = .ok js ∧ js.map JsonQuiz.quiz_id = l := by
  induction l with
  | nil => exact ⟨[], rfl, rfl⟩
  | cons hd tl ih =>
    obtain ⟨quiz, hq⟩ := Option.isSome_iff_exists.mp (h hd (List.mem_cons_self hd tl))
    obtain ⟨js, hjs, hmap⟩ := ih (fun id hid => h id (List.mem_cons_of_mem hd hid))
    refine ⟨{ quiz_id := hd, question := quiz.question,
              prize_amount := toString quiz.max_prize_amount } :: js, ?_, ?_⟩
    · unfold resolveQuizzes
      rw [hq]
      dsimp only
      rw [hjs]
    · simp [hmap]

/-! ### Concrete scenario states (spec §8, `maxPrizeAmount = 12`) -/

/-- The identity function stands in for the host SHA-256 in the concrete
scenarios: answer texts are compared directly against the stored digest. -/
def demoHash : String → String := fun s => s

def demoState0 : QuizContract := QuizContract.new "owner"

/-- Owner creates quiz 0 with `max_prize_amount = 12`, published. -/
def demoState1 : QuizContract :=
  applyAction demoHash demoState0 (.create "owner" "q" "secret" "12" true)

/-- One wrong answer by alice: retries 3 → 2. -/
def demoState2 : QuizContract := applyAction demoHash demoState1 (.submit "alice" 0 "bad")

/-- Two wrong answers: retries 2 → 1. -/
def demoState3 : QuizContract := applyAction demoHash demoState2 (.submit "alice" 0 "bad")

/-- Three wrong answers: retries 1 → 0 (exhausted). -/
def demoExhausted : QuizContract := applyAction demoHash demoState3 (.submit "alice" 0 "bad")

/-- Alice solves quiz 0 on the first attempt. -/
def demoSolved : QuizContract := applyAction demoHash demoState1 (.submit "alice" 0 "secret")

/-- Owner creates quiz 0 unpublished. -/
def demoUnpub : QuizContract :=
  applyAction demoHash demoState0 (.create "owner" "q" "secret" "12" false)

theorem demoState2_reachable : Reachable demoHash demoState2 :=
  .step _ _ (.step _ _ (.init "owner"))

theorem demoSolved_reachable : Reachable demoHash demoSolved :=
  .step _ _ (.step _ _ (.init "owner"))

theorem demoExhausted_reachable : Reachable demoHash demoExhausted :=
  .step _ _ (.step _ _ (.step _ _ (.step _ _ (.init "owner"))))

/-! ### The claims -/

/-- C1: for every published quiz and caller with `retries = r ∈ {1,2,3}`
remaining who has not solved it, submitting the correct answer succeeds and
reports (and pays) a prize of `max_prize_amount / (4 - r)` under integer
division. -/
theorem submit_correct_pays_floor_div (hash : String → String) (st : QuizContract)
    (c : AccountId) (qid : QuizId) (ans : String) (quiz : Quiz) (r : Nat)
    (hq : mapGet st.quizzes qid = some quiz)
    (hpub : quiz.status = QuizStatus.Published)
    (hns : qid ∉ solvedSetOf st c)
    (hr : retriesOf st c qid = r)
    (hr1 : 1 ≤ r) (hr3 : r ≤ 3)
    (hcorr : hash ans = quiz.correct_hash) :
    ∃ st', submit_answer hash st c qid ans =
      .ok (st', .correct (quiz.max_prize_amount / (4 - r))) := by
  subst hr
  exact ⟨_, submit_answer_eq_correct hash st c qid ans quiz hq hpub hns
    (by omega) hcorr⟩

/-- C1 witness: with `maxPrizeAmount = 12` and one prior wrong attempt
(`r = 2`) the correct answer pays `12 / 2 = 6`. -/
theorem submit_correct_pays_floor_div_witness :
    ∃ st', submit_answer demoHash demoState2 "alice" 0 "secret" =
      .ok (st', .correct 6) := by
  have h := submit_correct_pays_floor_div demoHash demoState2 "alice" 0 "secret"
    { status := .Published, question := "q", correct_hash := "secret",
      max_prize_amount := 12 } 2
    (by decide) (by decide) (by decide) (by decide) (by decide) (by decide) (by decide)
  simpa using h

/-- C2: in every reachable state, a solved `(account, quiz)` pair makes every
further submission fail `AlreadySolved`, and an exhausted unsolved pair makes
it fail `OutOfRetries`; either way the whole call rolls back, leaving the
state unchanged — `Solved` and `Exhausted` are absorbing. -/
theorem solved_and_exhausted_absorbing (hash : String → String) (st : QuizContract)
    (hreach : Reachable hash st) (a : AccountId) (qid : QuizId) (ans : String) :
    (qid ∈ solvedSetOf st a →
      submit_answer hash st a qid ans = .error .AlreadySolved ∧
      applyAction hash st (.submit a qid ans) = st) ∧
    (qid ∉ solvedSetOf st a → retriesOf st a qid = 0 →
      submit_answer hash st a qid ans = .error .OutOfRetries ∧
      applyAction hash st (.submit a qid ans) = st) := by
  have hInv := reachable_inv hreach
  constructor
  · intro hs
    obtain ⟨quiz, hq, hpub⟩ := hInv.solved_pub a qid hs
    have he := submit_answer_eq_error_already_solved hash st a qid ans quiz hq hpub hs
    exact ⟨he, by simp only [applyAction, he]⟩
  · intro hns hr0
    have hsome : (mapGet (retriesMapOf st a) qid).isSome := by
      cases hmg : mapGet (retriesMapOf st a) qid with
      | none =>
        rw [retriesOf, hmg] at hr0
        simp at hr0
      | some n => rfl
    obtain ⟨quiz, hq, hpub⟩ := hInv.retries_entry_pub a qid hsome
    have he := submit_answer_eq_error_out_of_retries hash st a qid ans quiz hq hpub hns hr0
    exact ⟨he, by simp only [applyAction, he]⟩

/-- C2 witness: alice solved quiz 0 in `demoSolved`, so a resubmission fails
`AlreadySolved`; in `demoExhausted` her retries are 0 and unsolved, so even the
correct answer fails `OutOfRetries`; both calls leave the state unchanged. -/
theorem solved_and_exhausted_absorbing_witness :
    (submit_answer demoHash demoSolved "alice" 0 "secret" = .error .AlreadySolved ∧
      applyAction demoHash demoSolved (.submit "alice" 0 "secret") = demoSolved) ∧
    (submit_answer demoHash demoExhausted "alice" 0 "secret" = .error .OutOfRetries ∧
      applyAction demoHash demoExhausted (.submit "alice" 0 "secret") = demoExhausted) := by
  constructor
  · exact (solved_and_exhausted_absorbing demoHash demoSolved demoSolved_reachable
      "alice" 0 "secret").1 (by decide)
  · exact (solved_and_exhausted_absorbing demoHash demoExhausted demoExhausted_reachable
      "alice" 0 "secret").2 (by decide) (by decide)

/-- C3: in every reachable state the publication index holds exactly the ids
of quizzes whose stored status is `Published`; every operation preserves this
equality; and `get_published_quizzes` succeeds and returns exactly the
published quizzes, as a set of ids. -/
theorem publication_index_exact (hash : String → String) (st : QuizContract)
    (hreach : Reachable hash st) :
    (∀ qid : QuizId, qid ∈ st.published_quiz_ids ↔
      ∃ q, mapGet st.quizzes qid = some q ∧ q.status = QuizStatus.Published) ∧
    (∀ (a : Action) (qid : QuizId),
      qid ∈ (applyAction hash st a).published_quiz_ids ↔
      ∃ q, mapGet (applyAction hash st a).quizzes qid = some q ∧
        q.status = QuizStatus.Published) ∧
    (∃ js, get_published_quizzes st = .ok js ∧
      ∀ qid : QuizId, (∃ j ∈ js, j.quiz_id = qid) ↔
        ∃ q, mapGet st.quizzes qid = some q ∧ q.status = QuizStatus.Published) := by
  have hInv := reachable_inv hreach
  refine ⟨hInv.pub_iff, fun a => (inv_applyAction hash hInv a).pub_iff, ?_⟩
  obtain ⟨js, hjs, hmap⟩ := resolveQuizzes_ok st st.published_quiz_ids
    (fun id hid => by
      obtain ⟨q, hq, -⟩ := (hInv.pub_iff id).mp hid
      rw [hq]
      rfl)
  refine ⟨js, hjs, fun qid => ?_⟩
  rw [← hInv.pub_iff qid, ← hmap]
  constructor
  · rintro ⟨j, hj, rfl⟩
    exact List.mem_map_of_mem JsonQuiz.quiz_id hj
  · intro hmem
    obtain ⟨j, hj, hjq⟩ := List.mem_map.mp hmem
    exact ⟨j, hj, hjq⟩

/-- C3 witness: in `demoState1` the index is `[0]`, quiz 0 is published, and
`get_published_quizzes` lists exactly quiz 0. -/
theorem publication_index_exact_witness :
    (0 ∈ demoState1.published_quiz_ids ↔
      ∃ q, mapGet demoState1.quizzes 0 = some q ∧ q.status = QuizStatus.Published) ∧
    ∃ js, get_published_quizzes demoState1 = .ok js ∧
      ∀ qid : QuizId, (∃ j ∈ js, j.quiz_id = qid) ↔
        ∃ q, mapGet demoState1.quizzes qid = some q ∧
          q.status = QuizStatus.Published := by
  have h := publication_index_exact demoHash demoState1
    (.step _ _ (.init "owner"))
  exact ⟨h.1 0, h.2.2⟩

/-- C4: in every reachable state every retry counter is in `{0,1,2,3}`, an
absent entry reads as 3 (the initial budget), and no call ever increases a
counter (in particular incorrect submissions only decrease it, floored at 0
by ℕ subtraction). -/
theorem retries_budget_invariant (hash : String → String) (st : QuizContract)
    (hreach : Reachable hash st) :
    (∀ (a : AccountId) (qid : QuizId), retriesOf st a qid ≤ 3) ∧
    (∀ (a : AccountId) (qid : QuizId), mapGet (retriesMapOf st a) qid = none →
      retriesOf st a qid = 3) ∧
    (∀ (act : Action) (a : AccountId) (qid : QuizId),
      retriesOf (applyAction hash st act) a qid ≤ retriesOf st a qid) :=
  ⟨(reachable_inv hreach).retries_le,
   fun a qid h => by rw [retriesOf, h]; rfl,
   fun act a qid => retriesOf_applyAction_le hash st act a qid⟩

/-- C4 witness: in `demoState2` (one wrong answer) alice's counter on quiz 0
is 2 ≤ 3, the untouched pair `(bob, 0)` still reads 3, and one more wrong
answer lowers alice's counter to 1 ≤ 2. -/
theorem retries_budget_invariant_witness :
    retriesOf demoState2 "alice" 0 ≤ 3 ∧
    retriesOf demoState2 "bob" 0 = 3 ∧
    retriesOf (applyAction demoHash demoState2 (.submit "alice" 0 "bad")) "alice" 0 ≤
      retriesOf demoState2 "alice" 0 := by
  have h := retries_budget_invariant demoHash demoState2 demoState2_reachable
  exact ⟨h.1 "alice" 0, h.2.1 "bob" 0 (by decide), h.2.2 (.submit "alice" 0 "bad") "alice" 0⟩

/-- C5 counterexample: the spec formula `max(current, 3) - 1` is wrong when
the stored counter is below 3.  In `demoState2` alice's counter on quiz 0 is
2; an incorrect submission (reaching `demoState3`) stores 1, but
`max(2, 3) - 1 = 2`. -/
theorem decrement_formula_counterexample :
    retriesOf demoState2 "alice" 0 = 2 ∧
    retriesOf demoState3 "alice" 0 = 1 ∧
    max (retriesOf demoState2 "alice" 0) 3 - 1 = 2 ∧
    retriesOf demoState3 "alice" 0 ≠ max (retriesOf demoState2 "alice" 0) 3 - 1 := by
  decide

/-- C5 amended: the incorrect-answer branch sets the `(account, quiz)` counter
to `current - 1` and persists it, where `current` is `retriesLeft` (the stored
counter, default 3 when absent, guarded nonzero before the branch runs); the
counter never goes below 0. -/
theorem decrement_retries_amended (hash : String → String) (st : QuizContract)
    (c : AccountId) (qid : QuizId) (ans : String) (quiz : Quiz)
    (hq : mapGet st.quizzes qid = some quiz) (hpub : quiz.status = QuizStatus.Published)
    (hns : qid ∉ solvedSetOf st c) (hrnz : retriesOf st c qid ≠ 0)
    (hwrong : hash ans ≠ quiz.correct_hash) :
    ∃ st' out, submit_answer hash st c qid ans = .ok (st', out) ∧
      mapGet (retriesMapOf st' c) qid = some (retriesOf st c qid - 1) ∧
      retriesOf st' c qid = retriesOf st c qid - 1 := by
  refine ⟨_, _, submit_answer_eq_wrong hash st c qid ans quiz hq hpub hns hrnz hwrong,
    ?_, ?_⟩
  · rw [retriesMapOf]
    simp only [mapGet_mapInsert_self, Option.getD_some]
  · rw [retriesOf, retriesMapOf]
    simp only [mapGet_mapInsert_self, Option.getD_some]

/-- C5 amended witness: from `demoState2` (counter 2) a wrong answer stores
`2 - 1 = 1`. -/
theorem decrement_retries_amended_witness :
    ∃ st' out, submit_answer demoHash demoState2 "alice" 0 "bad" = .ok (st', out) ∧
      mapGet (retriesMapOf st' "alice") 0 = some 1 ∧
      retriesOf st' "alice" 0 = 1 := by
  have h := decrement_retries_amended demoHash demoState2 "alice" 0 "bad"
    { status := .Published, question := "q", correct_hash := "secret",
      max_prize_amount := 12 }
    (by decide) (by decide) (by decide) (by decide) (by decide)
  simpa using h

/-- C6: for an existing quiz and the owner as caller, `publish_quiz` is
idempotent: the first call succeeds yielding `st'`, the second call succeeds
and returns `st'` again; an `Unpublished` quiz becomes `Published` and is
inserted into the index, and an already-`Published` quiz makes the call a
no-op. -/
theorem publish_quiz_idempotent (st : QuizContract) (c : AccountId) (qid : QuizId)
    (quiz : Quiz) (hq : mapGet st.quizzes qid = some quiz) (hc : st.owner_id = c) :
    ∃ st', publish_quiz st c qid = .ok st' ∧ publish_quiz st' c qid = .ok st' ∧
      mapGet st'.quizzes qid = some { quiz with status := QuizStatus.Published } ∧
      (quiz.status = QuizStatus.Unpublished → qid ∈ st'.published_quiz_ids) ∧
      (quiz.status = QuizStatus.Published → st' = st) := by
  cases hstat : quiz.status with
  | Published =>
    have hquiz : ({ quiz with status := QuizStatus.Published } : Quiz) = quiz := by
      cases quiz
      simp_all
    have h1 : publish_quiz st c qid = .ok { st with quizzes := mapInsert st.quizzes qid quiz } := by
      unfold publish_quiz check_owner
      rw [if_pos hc]
      dsimp only
      rw [hq]
      dsimp only
      rw [if_neg (by rw [hstat]; exact fun h => QuizStatus.noConfusion h)]
    have hsame : ({ st with quizzes := mapInsert st.quizzes qid quiz } : QuizContract) = st := by
      rw [mapInsert_mapGet_eq _ _ _ hq]
    rw [hsame] at h1
    refine ⟨st, h1, h1, ?_, ?_, fun _ => rfl⟩
    · rw [hquiz]
      exact hq
    · intro h
      exact QuizStatus.noConfusion h
  | Unpublished =>
    have h1 : publish_quiz st c qid =
        .ok { st with
                quizzes := mapInsert st.quizzes qid { quiz with status := QuizStatus.Published }
                published_quiz_ids := setInsert st.published_quiz_ids qid } := by
      unfold publish_quiz check_owner
      rw [if_pos hc]
      dsimp only
      rw [hq]
      dsimp only
      rw [if_pos hstat]
    have hget2 : mapGet (mapInsert st.quizzes qid { quiz with status := QuizStatus.Published }) qid =
        some { quiz with status := QuizStatus.Published } := mapGet_mapInsert_self _ _ _
    have h2 : publish_quiz
        { st with
            quizzes := mapInsert st.quizzes qid { quiz with status := QuizStatus.Published }
            published_quiz_ids := setInsert st.published_quiz_ids qid } c qid =
        .ok { st with
                quizzes := mapInsert st.quizzes qid { quiz with status := QuizStatus.Published }
                published_quiz_ids := setInsert st.published_quiz_ids qid } := by
      unfold publish_quiz check_owner
      rw [if_pos hc]
      dsimp only
      rw [hget2]
      dsimp only
      rw [if_neg (fun h => QuizStatus.noConfusion h)]
      rw [mapInsert_mapGet_eq _ _ _ hget2]
    exact ⟨_, h1, h2, hget2, fun _ => mem_setInsert_self _ _,
      fun hP => QuizStatus.noConfusion hP⟩

/-- C6 witness: publishing the unpublished quiz 0 of `demoUnpub` twice yields
the same state as publishing once, and the second call succeeds. -/
theorem publish_quiz_idempotent_witness :
    ∃ st', publish_quiz demoUnpub "owner" 0 = .ok st' ∧
      publish_quiz st' "owner" 0 = .ok st' ∧
      0 ∈ st'.published_quiz_ids := by
  obtain ⟨st', h1, h2, -, hmem, -⟩ := publish_quiz_idempotent demoUnpub "owner" 0
    { status := .Unpublished, question := "q", correct_hash := "secret",
      max_prize_amount := 12 }
    (by decide) (by decide)
  exact ⟨st', h1, h2, hmem rfl⟩

/-- C7: a non-owner caller makes `create_quiz` and `publish_quiz` fail with
`Unauthorized`, and the rolled-back call leaves the state unchanged; for the
owner the guard itself succeeds without any effect (it is a pure check). -/
theorem owner_guard (hash : String → String) (st : QuizContract) (c : AccountId) :
    (c ≠ st.owner_id →
      (∀ (q hsh m : String) (p : Bool),
        create_quiz st c q hsh m p = .error .Unauthorized ∧
        applyAction hash st (.create c q hsh m p) = st) ∧
      (∀ qid : QuizId,
        publish_quiz st c qid = .error .Unauthorized ∧
        applyAction hash st (.publishQ c qid) = st)) ∧
    (c = st.owner_id → check_owner st c = .ok ()) := by
  constructor
  · intro hne
    constructor
    · intro q hsh m p
      have he := create_quiz_unauthorized st c q hsh m p hne
      exact ⟨he, by simp only [applyAction, he]⟩
    · intro qid
      have he := publish_quiz_unauthorized st c qid hne
      exact ⟨he, by simp only [applyAction, he]⟩
  · intro heq
    unfold check_owner
    rw [if_pos heq.symm]

/-- C7 witness: eve cannot create or publish on `demoState1` (owned by
"owner"); for the owner the guard returns cleanly. -/
theorem owner_guard_witness :
    (create_quiz demoState1 "eve" "q2" "h2" "5" true = .error .Unauthorized ∧
      applyAction demoHash demoState1 (.create "eve" "q2" "h2" "5" true) = demoState1) ∧
    (publish_quiz demoState1 "eve" 0 = .error .Unauthorized ∧
      applyAction demoHash demoState1 (.publishQ "eve" 0) = demoState1) ∧
    check_owner demoState1 "owner" = .ok () := by
  have h := owner_guard demoHash demoState1 "eve"
  have h2 := owner_guard demoHash demoState1 "owner"
  exact ⟨(h.1 (by decide)).1 "q2" "h2" "5" true, (h.1 (by decide)).2 0,
    h2.2 (by decide)⟩

/-- C8: once a quiz exists, no call changes its `question`, `correct_hash` or
`max_prize_amount`, and its status never reverts from `Published` — in
particular `publish_quiz` touches no field but `status`. -/
theorem quiz_fields_immutable (hash : String → String) (st : QuizContract) (act : Action)
    (qid : QuizId) (quiz : Quiz) (hq : mapGet st.quizzes qid = some quiz) :
    ∃ quiz', mapGet (applyAction hash st act).quizzes qid = some quiz' ∧
      quiz'.question = quiz.question ∧
      quiz'.correct_hash = quiz.correct_hash ∧
      quiz'.max_prize_amount = quiz.max_prize_amount ∧
      (quiz.status = QuizStatus.Published → quiz'.status = QuizStatus.Published) := by
  cases act with
  | create c q h m p =>
    simp only [applyAction]
    cases hc : create_quiz st c q h m p with
    | error e => exact ⟨quiz, hq, rfl, rfl, rfl, fun h => h⟩
    | ok r =>
      obtain ⟨st', id⟩ := r
      obtain ⟨-, -, hnone, amount, -, rfl⟩ := create_quiz_ok hc
      have hne : qid ≠ st.current_quiz_id := by
        intro h
        rw [h, hnone] at hq
        exact Option.noConfusion hq
      refine ⟨quiz, ?_, rfl, rfl, rfl, fun h => h⟩
      rw [mapGet_mapInsert_ne _ _ _ _ hne]
      exact hq
  | publishQ c id =>
    simp only [applyAction]
    cases hc : publish_quiz st c id with
    | error e => exact ⟨quiz, hq, rfl, rfl, rfl, fun h => h⟩
    | ok st' =>
      obtain ⟨-, quizB, hqB, hcase⟩ := publish_quiz_ok hc
      rcases hcase with ⟨hunpub, rfl⟩ | ⟨-, rfl⟩
      · by_cases hid : qid = id
        · subst hid
          rw [hq] at hqB
          injection hqB with hqB
          subst hqB
          refine ⟨{ quiz with status := .Published }, mapGet_mapInsert_self _ _ _,
            rfl, rfl, rfl, fun _ => rfl⟩
        · refine ⟨quiz, ?_, rfl, rfl, rfl, fun h => h⟩
          rw [mapGet_mapInsert_ne _ _ _ _ hid]
          exact hq
      · by_cases hid : qid = id
        · subst hid
          rw [hq] at hqB
          injection hqB with hqB
          subst hqB
          exact ⟨quiz, mapGet_mapInsert_self _ _ _, rfl, rfl, rfl, fun h => h⟩
        · refine ⟨quiz, ?_, rfl, rfl, rfl, fun h => h⟩
          rw [mapGet_mapInsert_ne _ _ _ _ hid]
          exact hq
  | submit c id ans =>
    simp only [applyAction]
    cases hc : submit_answer hash st c id ans with
    | error e => exact ⟨quiz, hq, rfl, rfl, rfl, fun h => h⟩
    | ok r =>
      obtain ⟨st', out⟩ := r
      obtain ⟨quizB, hqB, -, -, -, hcase⟩ := submit_answer_ok hc
      rcases hcase with ⟨-, -, rfl⟩ | ⟨-, rfl⟩ <;>
        exact ⟨quiz, hq, rfl, rfl, rfl, fun h => h⟩

/-- C8 witness: publishing the unpublished quiz 0 of `demoUnpub` keeps its
question, hash and prize. -/
theorem quiz_fields_immutable_witness :
    ∃ quiz', mapGet (applyAction demoHash demoUnpub (.publishQ "owner" 0)).quizzes 0 =
        some quiz' ∧
      quiz'.question = "q" ∧ quiz'.correct_hash = "secret" ∧
      quiz'.max_prize_amount = 12 := by
  obtain ⟨quiz', hget, hq, hh, hm, -⟩ := quiz_fields_immutable demoHash demoUnpub
    (.publishQ "owner" 0) 0
    { status := .Unpublished, question := "q", correct_hash := "secret",
      max_prize_amount := 12 }
    (by decide)
  exact ⟨quiz', hget, hq, hh, hm⟩

/-- C9: in every reachable state, whenever the retry counter read by
`submit_answer` is nonzero (the only way past the `OutOfRetries` guard into
the prize computation), it lies in `{1,2,3}`, so the divisor `4 - retries`
is at least 1 and the prize division never divides by zero. -/
theorem prize_divisor_positive (hash : String → String) (st : QuizContract)
    (hreach : Reachable hash st) (a : AccountId) (qid : QuizId)
    (hnz : retriesOf st a qid ≠ 0) :
    1 ≤ retriesOf st a qid ∧ retriesOf st a qid ≤ 3 ∧
    1 ≤ 4 - retriesOf st a qid := by
  have h3 := (reachable_inv hreach).retries_le a qid
  omega

/-- C9 witness: in `demoState3` alice's counter on quiz 0 is 1 ∈ {1,2,3} and
the divisor is `4 - 1 = 3 ≥ 1`. -/
theorem prize_divisor_positive_witness :
    1 ≤ retriesOf demoState3 "alice" 0 ∧ retriesOf demoState3 "alice" 0 ≤ 3 ∧
    1 ≤ 4 - retriesOf demoState3 "alice" 0 :=
  prize_divisor_positive demoHash demoState3
    (.step _ _ (.step _ _ (.step _ _ (.init "owner")))) "alice" 0 (by decide)

/-- C10: when the owner calls `create_quiz` with a `max_prize_amount` string
that does not parse as an unsigned 128-bit decimal, the `unwrap` panic aborts
the whole call: no quiz is stored and the quiz-id counter is unchanged (the
rolled-back state equals the old state). -/
theorem create_quiz_bad_amount_aborts (hash : String → String) (st : QuizContract)
    (c : AccountId) (q hsh m : String) (p : Bool)
    (hm : parseU128 m = none) :
    (c = st.owner_id → create_quiz st c q hsh m p = .error .InvalidAmount) ∧
    applyAction hash st (.create c q hsh m p) = st ∧
    (applyAction hash st (.create c q hsh m p)).quizzes = st.quizzes ∧
    (applyAction hash st (.create c q hsh m p)).current_quiz_id = st.current_quiz_id := by
  have herr : ∀ e, create_quiz st c q hsh m p = .error e →
      applyAction hash st (.create c q hsh m p) = st := by
    intro e he
    simp only [applyAction, he]
  by_cases hc : c = st.owner_id
  · have he : create_quiz st c q hsh m p = .error .InvalidAmount := by
      unfold create_quiz check_owner
      rw [if_pos hc.symm]
      dsimp only
      rw [hm]
    have hstate := herr _ he
    exact ⟨fun _ => he, hstate, by rw [hstate], by rw [hstate]⟩
  · have he := create_quiz_unauthorized st c q hsh m p hc
    have hstate := herr _ he
    exact ⟨fun h => absurd h hc, hstate, by rw [hstate], by rw [hstate]⟩

/-- C10 witness: `"12.5"` does not parse as `u128`, so the owner's
`create_quiz` on the fresh contract aborts and stores nothing. -/
theorem create_quiz_bad_amount_aborts_witness :
    create_quiz demoState0 "owner" "q" "h" "12.5" true = .error .InvalidAmount ∧
    applyAction demoHash demoState0 (.create "owner" "q" "h" "12.5" true) = demoState0 := by
  have h := create_quiz_bad_amount_aborts demoHash demoState0 "owner" "q" "h" "12.5" true
    (by decide)
  exact ⟨h.1 (by decide), h.2.1⟩

end QuizTime
